import Mathlib

/-!
Shallow embedding of the matching core of `match_pdfs_title_doi`
(`matcher.py`): text normalization, PDF-filename analysis, index
construction and the two-phase record matcher, together with proofs of
the specified properties.

Strings are modelled as their `List Char` of code points; Python's
`str.lower` is modelled by ASCII lowercasing (`Char.toLower`), which
agrees with CPython on every character relevant here.
-/

namespace MatchPdfs

/-- `[a-z]` test used by `TextNormalizer.normalize`. -/
def isLowerAlpha (c : Char) : Bool := 'a' ≤ c && c ≤ 'z'

/-- `[0-9]` test. -/
def isDigitC (c : Char) : Bool := '0' ≤ c && c ≤ '9'

/-- `[0-9a-fA-F]` test used by the `#x...;` encoding pattern. -/
def isHexDigitC (c : Char) : Bool :=
  isDigitC c || ('a' ≤ c && c ≤ 'f') || ('A' ≤ c && c ≤ 'F')

/-- `TextNormalizer.normalize`: empty text maps to empty; otherwise
lower-case, then keep only `[a-z]` (`removeNumbers = true`) or
`[a-z0-9]` (`removeNumbers = false`). -/
def normalize (text : List Char) (removeNumbers : Bool) : List Char :=
  if text = [] then []
  else
    (text.map Char.toLower).filter
      (fun c => if removeNumbers then isLowerAlpha c else isLowerAlpha c || isDigitC c)

/-- String-level wrapper of `normalize`. -/
def normalizeS (s : String) (removeNumbers : Bool) : String :=
  ⟨normalize s.data removeNumbers⟩

/-- After `#x` and one hex digit have been read: consume further hex
digits until a `;` closes the token (the regex `[0-9a-fA-F]+;` —
since `;` is not a hex digit, greedy matching succeeds exactly when the
maximal hex run is followed by `;`). Returns the rest after the token. -/
def consumeHexSemi : List Char → Option (List Char)
  | [] => none
  | c :: rest =>
    if c = ';' then some rest
    else if isHexDigitC c then consumeHexSemi rest
    else none

/-- Attempt to match the regex `#x[0-9a-fA-F]+;` at the head of the list,
returning the remainder after the match. -/
def matchTok : List Char → Option (List Char)
  | '#' :: 'x' :: c :: rest => if isHexDigitC c then consumeHexSemi rest else none
  | _ => none

/-- One pass of `re.sub(r'#x[0-9a-fA-F]+;', '', s)`: scan left to right,
deleting each non-overlapping match and resuming after it.  Fuel-indexed
so that the recursion is structural; each step consumes at least one
character, so `fuel = length` suffices. -/
def removeSEAux : Nat → List Char → List Char
  | 0, l => l
  | _ + 1, [] => []
  | fuel + 1, c :: rest =>
    match matchTok (c :: rest) with
    | some rest2 => removeSEAux fuel rest2
    | none => c :: removeSEAux fuel rest

/-- `TextNormalizer.remove_special_encoding` on char lists. -/
def remove_special_encoding (l : List Char) : List Char :=
  removeSEAux l.length l

/-- `TextNormalizer.remove_special_encoding` on strings. -/
def removeSpecialEncoding (s : String) : String :=
  ⟨remove_special_encoding s.data⟩

/-- Whether some position of the list starts a `#x[0-9a-fA-F]+;` token
(i.e. the string contains a substring matched by the pattern). -/
def containsToken : List Char → Bool
  | [] => false
  | c :: rest => (matchTok (c :: rest)).isSome || containsToken rest

/-- String-level token test. -/
def hasEncodingToken (s : String) : Bool := containsToken s.data

/-! ## PDFNameAnalyzer -/

/-- `PDFNameAnalyzer.DOI_PREFIXES`, in order. -/
def DOI_PREFIXES : List (List Char) := ["isj.".data, "j.1365-2575".data, "10.".data]

/-- Python `str.lower` (ASCII model). -/
def lowerName (l : List Char) : List Char := l.map Char.toLower

/-- `PDFNameAnalyzer._is_doi_format`: the lower-cased name starts with one
of the known DOI prefixes. -/
def is_doi_format (name : List Char) : Bool :=
  DOI_PREFIXES.any (fun p => p.isPrefixOf (lowerName name))

/-- `PDFNameAnalyzer._build_full_doi`: case-sensitive prefix dispatch. -/
def build_full_doi (name : List Char) : List Char :=
  if "isj.".data.isPrefixOf name then "10.1111/".data ++ name
  else if "j.1365-2575".data.isPrefixOf name then "10.1111/".data ++ name
  else if "10.".data.isPrefixOf name then name
  else name

/-- Match of the regex `_(\d{4})_` at the head of the list. -/
def midTokenAt : List Char → Bool
  | '_' :: a :: b :: c :: d :: '_' :: _ =>
    isDigitC a && isDigitC b && isDigitC c && isDigitC d
  | _ => false

/-- Match of the regex `_(\d{4})$` at the head of the list (the token must
use up the whole list). -/
def endTokenAt : List Char → Bool
  | ['_', a, b, c, d] => isDigitC a && isDigitC b && isDigitC c && isDigitC d
  | _ => false

/-- `re.search` for a fixed-length pattern: index of the first position
whose suffix matches `midTokenAt`. -/
def findMidIdx : List Char → Option Nat
  | [] => none
  | c :: rest =>
    if midTokenAt (c :: rest) then some 0
    else (findMidIdx rest).map (· + 1)

/-- `re.search` for the end-anchored pattern. -/
def findEndIdx : List Char → Option Nat
  | [] => none
  | c :: rest =>
    if endTokenAt (c :: rest) then some 0
    else (findEndIdx rest).map (· + 1)

/-- `PDFNameAnalyzer._extract_title_part`: cut before the first
underscore-delimited 4-digit year (`_dddd_` anywhere, else `_dddd` at the
end); otherwise return the name unchanged. -/
def extract_title_part (name : List Char) : List Char :=
  match findMidIdx name with
  | some i => name.take i
  | none =>
    match findEndIdx name with
    | some i => name.take i
    | none => name

/-- `PDFNameAnalyzer.analyze` on char lists:
`(normalized_for_title, normalized_for_doi, is_doi_format)`. -/
def analyze (pdf_name : List Char) : List Char × List Char × Bool :=
  let cleaned_name := remove_special_encoding pdf_name
  if is_doi_format cleaned_name then
    let full_doi := build_full_doi cleaned_name
    (normalize cleaned_name true, normalize full_doi false, true)
  else
    let title_part := extract_title_part cleaned_name
    (normalize title_part true, normalize cleaned_name false, false)

/-- `PDFNameAnalyzer.analyze` on strings. -/
def analyzeS (s : String) : String × String × Bool :=
  let r := analyze s.data
  (⟨r.1⟩, ⟨r.2.1⟩, r.2.2)

/-! ## Records and results -/

/-- `data_sources.Record`: an ordered key/value mapping (field values are
modelled as the strings the matcher converts them to). -/
structure Record where
  data : List (String × String)
  source_id : String := ""
deriving DecidableEq, Repr

/-- `Record.get(key, "")` as used by the matcher: first binding of the
key, defaulting to the empty string. -/
def Record.get (r : Record) (key : String) : String :=
  match r.data.find? (fun p => p.1 == key) with
  | some p => p.2
  | none => ""

/-- `MatchStatus`. -/
inductive MatchStatus where
  | MATCHED
  | UNMATCHED
  | MULTI_MATCHED
deriving DecidableEq, Repr

/-- `MatchResult`: one record's outcome.  File locations (`Path`) are
modelled as strings. -/
structure MatchResult where
  record_index : Nat
  record : Record
  status : MatchStatus
  matched_pdfs : List String := []
  reason : String := ""
deriving DecidableEq, Repr

/-- `BatchMatchResult`. -/
structure BatchMatchResult where
  source_name : String
  total_records : Nat
  total_pdfs : Nat
  results : List MatchResult := []
deriving DecidableEq, Repr

/-- `BatchMatchResult.matched_results`. -/
def BatchMatchResult.matched_results (b : BatchMatchResult) : List MatchResult :=
  b.results.filter (fun r => r.status == MatchStatus.MATCHED)

/-- `BatchMatchResult.unmatched_results`. -/
def BatchMatchResult.unmatched_results (b : BatchMatchResult) : List MatchResult :=
  b.results.filter (fun r => r.status == MatchStatus.UNMATCHED)

/-- `BatchMatchResult.multi_matched_results`. -/
def BatchMatchResult.multi_matched_results (b : BatchMatchResult) : List MatchResult :=
  b.results.filter (fun r => r.status == MatchStatus.MULTI_MATCHED)

/-- `BatchMatchResult.matched_count`. -/
def BatchMatchResult.matched_count (b : BatchMatchResult) : Nat :=
  b.matched_results.length

/-- `BatchMatchResult.unmatched_count`. -/
def BatchMatchResult.unmatched_count (b : BatchMatchResult) : Nat :=
  b.unmatched_results.length

/-- `BatchMatchResult.multi_matched_count`. -/
def BatchMatchResult.multi_matched_count (b : BatchMatchResult) : Nat :=
  b.multi_matched_results.length

/-- `BatchMatchResult.match_rate`; Python's float division is modelled by
exact rational division. -/
def BatchMatchResult.match_rate (b : BatchMatchResult) : ℚ :=
  if b.total_records = 0 then 0
  else (b.matched_count : ℚ) / (b.total_records : ℚ)

/-! ## The matching engine -/

/-- An index as built by `match_all`: insertion-ordered association list
from a normalized key to the `(pdf_name, pdf_path)` pairs filed under
it (the model of `defaultdict(list)`). -/
abbrev Index := List (String × List (String × String))

/-- Python's `x in s` substring test on char lists. -/
def containsSub (p : List Char) : List Char → Bool
  | [] => p.isEmpty
  | c :: rest => p.isPrefixOf (c :: rest) || containsSub p rest

/-- `list(dict.fromkeys(xs))`: deduplication keeping the first occurrence
of each element, in first-seen order. -/
def dedupFirstAux [DecidableEq α] (seen : List α) : List α → List α
  | [] => []
  | a :: l =>
    if a ∈ seen then dedupFirstAux seen l
    else a :: dedupFirstAux (a :: seen) l

/-- `list(dict.fromkeys(xs))`. -/
def dedupFirst [DecidableEq α] (l : List α) : List α := dedupFirstAux [] l

/-- The DOI phase of `_match_single_record` (matcher.py lines 400-412):
the paths accumulated over the DOI index. -/
def doiPhase (doiCol : String) (record : Record) (doi_index : Index) : List String :=
  let doi_value := record.get doiCol
  if doi_value ≠ "" then
    let norm_doi := normalizeS doi_value false
    if 5 ≤ norm_doi.length then
      (doi_index.filter (fun e =>
          !(e.1 == "") && decide (5 ≤ e.1.length) &&
            (norm_doi == e.1 || containsSub e.1.data norm_doi.data))).flatMap
        (fun e => e.2.map (fun p => p.2))
    else []
  else []

/-- The title phase of `_match_single_record` (matcher.py lines 414-421):
the paths accumulated over the title index. -/
def titlePhase (titleCol : String) (record : Record) (title_index : Index) : List String :=
  let title_value := record.get titleCol
  if title_value ≠ "" then
    let norm_title := normalizeS title_value true
    (title_index.filter (fun e =>
        !(e.1 == "") && e.1.data.isPrefixOf norm_title.data)).flatMap
      (fun e => e.2.map (fun p => p.2))
  else []

/-- The classification step of `_match_single_record` (matcher.py lines
426-455): zero deduplicated locations → Unmatched with a reason, one →
Matched, two or more → MultiMatched with a reason naming the count. -/
def classifyMatches (idx : Nat) (record : Record) (md : List String) : MatchResult :=
  if md.length = 0 then
    { record_index := idx, record := record, status := MatchStatus.UNMATCHED,
      matched_pdfs := [], reason := "未找到匹配的 PDF 文件" }
  else if md.length = 1 then
    { record_index := idx, record := record, status := MatchStatus.MATCHED,
      matched_pdfs := md, reason := "" }
  else
    { record_index := idx, record := record, status := MatchStatus.MULTI_MATCHED,
      matched_pdfs := md,
      reason := "匹配到 " ++ toString md.length ++ " 个 PDF 文件" }

/-- `PDFMatcher._match_single_record`: DOI phase first; the title phase
only runs when the DOI phase accumulated nothing; deduplicate, then
classify by multiplicity. -/
def matchSingleRecord (titleCol doiCol : String) (idx : Nat) (record : Record)
    (title_index doi_index : Index) : MatchResult :=
  let doiMatches := doiPhase doiCol record doi_index
  let matching_pdfs :=
    if doiMatches.isEmpty then titlePhase titleCol record title_index
    else doiMatches
  classifyMatches idx record (dedupFirst matching_pdfs)

/-- `defaultdict(list)` update: `index[key].append(v)` — append to the
existing key's list, else add a new key at the end. -/
def addToIndex (idx : Index) (key : String) (v : String × String) : Index :=
  match idx with
  | [] => [(key, [v])]
  | (k, vs) :: rest =>
    if k = key then (k, vs ++ [v]) :: rest
    else (k, vs) :: addToIndex rest key v

/-- One iteration of the index-building loop of `match_all` (matcher.py
lines 356-364): analyze the scanned base name; the title index takes
non-empty, non-DOI title keys of length ≥ 10; the DOI index takes every
non-empty DOI key. -/
def buildStep (acc : Index × Index) (f : String × String) : Index × Index :=
  let r := analyzeS f.1
  let norm_title := r.1
  let norm_doi := r.2.1
  let is_doi := r.2.2
  let ti :=
    if norm_title ≠ "" ∧ is_doi = false ∧ 10 ≤ norm_title.length then
      addToIndex acc.1 norm_title f
    else acc.1
  let di := if norm_doi ≠ "" then addToIndex acc.2 norm_doi f else acc.2
  (ti, di)

/-- Index construction of `match_all` (matcher.py lines 351-364). -/
def buildIndexes (pdf_files : List (String × String)) : Index × Index :=
  pdf_files.foldl buildStep ([], [])

/-- `PDFMatcher.match_all`, given the scan result (base name → location,
in scan order) and the records: empty scans short-circuit to
all-unmatched; otherwise build both indexes once and match each record
independently. -/
def match_all (titleCol doiCol : String) (pdf_files : List (String × String))
    (records : List Record) (source_name : String) : BatchMatchResult :=
  let base : BatchMatchResult :=
    { source_name := source_name, total_records := records.length,
      total_pdfs := pdf_files.length, results := [] }
  if pdf_files.isEmpty then
    { base with
        results := records.enum.map (fun p =>
          { record_index := p.1, record := p.2, status := MatchStatus.UNMATCHED,
            matched_pdfs := [], reason := "目录中没有 PDF 文件" }) }
  else
    let idxs := buildIndexes pdf_files
    { base with
        results := records.enum.map (fun p =>
          matchSingleRecord titleCol doiCol p.1 p.2 idxs.1 idxs.2) }

/-- All `(key, (name, path))` pairs stored in an index, flattened. -/
def indexPairs (idx : Index) : List (String × (String × String)) :=
  idx.flatMap (fun e => e.2.map (fun v => (e.1, v)))

/-! ## Helper lemmas -/

theorem removeSEAux_of_not_containsToken (fuel : Nat) :
    ∀ l : List Char, l.length ≤ fuel → containsToken l = false →
      removeSEAux fuel l = l := by
  induction fuel with
  | zero => intro l _ _; rfl
  | succ n ih =>
    intro l hlen htok
    cases l with
    | nil => rfl
    | cons c rest =>
      have h1 : matchTok (c :: rest) = none := by
        cases h : matchTok (c :: rest) with
        | none => rfl
        | some r =>
          rw [containsToken, h] at htok
          simp at htok
      have h2 : containsToken rest = false := by
        rw [containsToken, h1] at htok
        simpa using htok
      rw [removeSEAux, h1]
      have : rest.length ≤ n := by
        simp only [List.length_cons] at hlen
        omega
      rw [ih rest this h2]

theorem lowerName_append (a b : List Char) :
    lowerName (a ++ b) = lowerName a ++ lowerName b := by
  unfold lowerName
  exact List.map_append _ a b

theorem lowerName_keeps_pre {p l : List Char} (hp : lowerName p = p) (h : p <+: l) :
    p <+: lowerName l := by
  obtain ⟨t, rfl⟩ := h
  rw [lowerName_append, hp]
  exact ⟨lowerName t, rfl⟩

theorem is_doi_format_of_mem {l p : List Char} (hmem : p ∈ DOI_PREFIXES)
    (h : p <+: lowerName l) : is_doi_format l = true := by
  rw [is_doi_format, List.any_eq_true]
  exact ⟨p, hmem, List.isPrefixOf_iff_prefix.mpr h⟩

theorem analyze_of_doi_format (s : String)
    (hdoi : is_doi_format (remove_special_encoding s.data) = true) :
    (analyzeS s).2.2 = true ∧
    (analyzeS s).2.1 =
      ⟨normalize (build_full_doi (remove_special_encoding s.data)) false⟩ := by
  simp only [analyzeS, analyze, hdoi, if_true]
  exact ⟨trivial, trivial⟩

theorem build_full_doi_isj {l : List Char} (h : "isj.".data <+: l) :
    build_full_doi l = "10.1111/".data ++ l := by
  rw [build_full_doi, if_pos (List.isPrefixOf_iff_prefix.mpr h)]

theorem build_full_doi_legacy {l : List Char} (h : "j.1365-2575".data <+: l) :
    build_full_doi l = "10.1111/".data ++ l := by
  have h1 : ¬ ("isj.".data.isPrefixOf l = true) := by
    rw [List.isPrefixOf_iff_prefix]
    intro hc
    exact absurd (List.prefix_of_prefix_length_le hc h (by decide)) (by decide)
  rw [build_full_doi, if_neg h1, if_pos (List.isPrefixOf_iff_prefix.mpr h)]

theorem build_full_doi_generic {l : List Char} (h : "10.".data <+: l) :
    build_full_doi l = l := by
  have h1 : ¬ ("isj.".data.isPrefixOf l = true) := by
    rw [List.isPrefixOf_iff_prefix]
    intro hc
    exact absurd (List.prefix_of_prefix_length_le h hc (by decide)) (by decide)
  have h2 : ¬ ("j.1365-2575".data.isPrefixOf l = true) := by
    rw [List.isPrefixOf_iff_prefix]
    intro hc
    exact absurd (List.prefix_of_prefix_length_le h hc (by decide)) (by decide)
  rw [build_full_doi, if_neg h1, if_neg h2, if_pos (List.isPrefixOf_iff_prefix.mpr h)]

end MatchPdfs

open MatchPdfs

/-- C1: `removeSpecialEncoding` leaves every string containing no
`#x`+hex+`;` token unchanged; consequently applying it twice agrees with
applying it once whenever the first pass's output is token-free; the
unconditional idempotence of the original claim fails. -/
theorem c1_thm (s : String) :
    (hasEncodingToken s = false → removeSpecialEncoding s = s) ∧
    (hasEncodingToken (removeSpecialEncoding s) = false →
      removeSpecialEncoding (removeSpecialEncoding s) = removeSpecialEncoding s) := by
  have base : ∀ t : String, hasEncodingToken t = false → removeSpecialEncoding t = t := by
    intro t ht
    show (⟨remove_special_encoding t.data⟩ : String) = t
    rw [remove_special_encoding,
      removeSEAux_of_not_containsToken t.data.length t.data le_rfl ht]
  exact ⟨base s, base (removeSpecialEncoding s)⟩

/-- C1 witness: a token-free string is returned unchanged. -/
theorem c1_witness :
    hasEncodingToken "filename_2024" = false ∧
      removeSpecialEncoding "filename_2024" = "filename_2024" :=
  ⟨by decide, (c1_thm "filename_2024").1 (by decide)⟩

/-- C1 counterexample: `removeSpecialEncoding` is not idempotent — on
`"#x#x1;1;"` the first pass deletes the inner token `#x1;`, leaving the
string `"#x1;"`, which a second pass deletes entirely. -/
theorem c1_counterexample :
    removeSpecialEncoding (removeSpecialEncoding "#x#x1;1;") ≠
      removeSpecialEncoding "#x#x1;1;" := by decide

/-- C2 (amended): when the encoding-cleaned name starts with the literal
(lower-case) journal prefix `isj.` or legacy prefix `j.1365-2575`,
`analyze` flags DOI format and the DOI key is the normalization
(numbers kept) of the cleaned name prefixed with the registrant code
`10.1111/`; a cleaned name starting with the generic `10.` prefix is used
as-is.  The expansion is case-sensitive: a name matching a known pattern
only case-insensitively is still flagged as DOI format but is not
expanded. -/
theorem c2_thm (s : String) :
    ("isj.".data.isPrefixOf (removeSpecialEncoding s).data = true →
        (analyzeS s).2.2 = true ∧
        (analyzeS s).2.1 = normalizeS ("10.1111/" ++ removeSpecialEncoding s) false) ∧
    ("j.1365-2575".data.isPrefixOf (removeSpecialEncoding s).data = true →
        (analyzeS s).2.2 = true ∧
        (analyzeS s).2.1 = normalizeS ("10.1111/" ++ removeSpecialEncoding s) false) ∧
    ("10.".data.isPrefixOf (removeSpecialEncoding s).data = true →
        (analyzeS s).2.2 = true ∧
        (analyzeS s).2.1 = normalizeS (removeSpecialEncoding s) false) := by
  refine ⟨?_, ?_, ?_⟩ <;> intro hb
  · have hpre := List.isPrefixOf_iff_prefix.mp hb
    have hdoi := is_doi_format_of_mem (l := remove_special_encoding s.data)
      (p := "isj.".data) (by decide) (lowerName_keeps_pre (by decide) hpre)
    obtain ⟨hflag, hkey⟩ := analyze_of_doi_format s hdoi
    refine ⟨hflag, ?_⟩
    rw [hkey, build_full_doi_isj (l := remove_special_encoding s.data) hpre,
      normalizeS, String.data_append]
    exact rfl
  · have hpre := List.isPrefixOf_iff_prefix.mp hb
    have hdoi := is_doi_format_of_mem (l := remove_special_encoding s.data)
      (p := "j.1365-2575".data) (by decide) (lowerName_keeps_pre (by decide) hpre)
    obtain ⟨hflag, hkey⟩ := analyze_of_doi_format s hdoi
    refine ⟨hflag, ?_⟩
    rw [hkey, build_full_doi_legacy (l := remove_special_encoding s.data) hpre,
      normalizeS, String.data_append]
    exact rfl
  · have hpre := List.isPrefixOf_iff_prefix.mp hb
    have hdoi := is_doi_format_of_mem (l := remove_special_encoding s.data)
      (p := "10.".data) (by decide) (lowerName_keeps_pre (by decide) hpre)
    obtain ⟨hflag, hkey⟩ := analyze_of_doi_format s hdoi
    refine ⟨hflag, ?_⟩
    rw [hkey, build_full_doi_generic (l := remove_special_encoding s.data) hpre, normalizeS]
    exact rfl

/-- C2 witness: `analyze "isj.12345"` expands the short prefix. -/
theorem c2_witness :
    "isj.".data.isPrefixOf (removeSpecialEncoding "isj.12345").data = true ∧
      (analyzeS "isj.12345").2.2 = true ∧
      (analyzeS "isj.12345").2.1 =
        normalizeS ("10.1111/" ++ removeSpecialEncoding "isj.12345") false :=
  ⟨by decide, (c2_thm "isj.12345").1 (by decide)⟩

/-- C2 counterexample: `"ISJ.123"` matches the `isj.` prefix
case-insensitively (so the original claim demands the expanded DOI key
`101111isj123`), and `analyze` does flag it as DOI format, but the
case-sensitive `_build_full_doi` leaves it unexpanded, yielding the DOI
key `isj123`. -/
theorem c2_counterexample :
    (analyzeS "ISJ.123").2.2 = true ∧
      "isj.".data.isPrefixOf (lowerName (removeSpecialEncoding "ISJ.123").data) = true ∧
      (analyzeS "ISJ.123").2.1 ≠
        normalizeS ("10.1111/" ++ removeSpecialEncoding "ISJ.123") false := by
  refine ⟨by decide, by decide, by decide⟩

/-- C3: in the DOI phase, when the record's DOI normalizes (numbers kept)
to a value of length at least 5, the collected locations are exactly
those of the DOI-index entries whose key has length at least 5 and
either equals the normalized record DOI or is a substring of it; a
record whose DOI normalizes to fewer than 5 characters contributes no
DOI-phase match regardless of index content. -/
theorem c3_thm (doiCol : String) (record : Record) (doi_index : Index) :
    (5 ≤ (normalizeS (record.get doiCol) false).length →
      ∀ loc : String,
        (loc ∈ doiPhase doiCol record doi_index ↔
          ∃ k paths, (k, paths) ∈ doi_index ∧ 5 ≤ k.length ∧
            (k = normalizeS (record.get doiCol) false ∨
              containsSub k.data (normalizeS (record.get doiCol) false).data = true) ∧
            loc ∈ paths.map (fun p => p.2))) ∧
    ((normalizeS (record.get doiCol) false).length < 5 →
      doiPhase doiCol record doi_index = []) := by
  constructor
  · intro h5 loc
    have hv : record.get doiCol ≠ "" := by
      intro h0
      rw [h0] at h5
      exact absurd h5 (by decide)
    simp only [doiPhase]
    rw [if_pos hv, if_pos h5]
    simp only [List.mem_flatMap, List.mem_filter]
    constructor
    · rintro ⟨e, ⟨hmem, hcond⟩, hloc⟩
      simp only [Bool.and_eq_true, Bool.or_eq_true, beq_iff_eq, Bool.not_eq_true',
        beq_eq_false_iff_ne, decide_eq_true_eq] at hcond
      obtain ⟨⟨hne, hlen⟩, hor⟩ := hcond
      refine ⟨e.1, e.2, hmem, hlen, ?_, hloc⟩
      rcases hor with h | h
      · exact Or.inl h.symm
      · exact Or.inr h
    · rintro ⟨k, paths, hmem, hlen, hor, hloc⟩
      refine ⟨(k, paths), ⟨hmem, ?_⟩, hloc⟩
      have hne : k ≠ "" := by
        intro h
        rw [h] at hlen
        exact absurd hlen (by decide)
      simp only [Bool.and_eq_true, Bool.or_eq_true, beq_iff_eq, Bool.not_eq_true',
        beq_eq_false_iff_ne, decide_eq_true_eq]
      refine ⟨⟨hne, hlen⟩, ?_⟩
      rcases hor with h | h
      · exact Or.inl h.symm
      · exact Or.inr h
  · intro h5
    by_cases hv : record.get doiCol = ""
    · simp only [doiPhase]
      rw [if_neg (by simpa using hv)]
    · simp only [doiPhase]
      rw [if_pos hv, if_neg (by omega)]

/-- C3 witness: a concrete record whose DOI contains an indexed key. -/
theorem c3_witness :
    5 ≤ (normalizeS ((Record.mk [("DOI", "10.1111/isj.12345")] "").get "DOI") false).length ∧
    ("loc1" ∈ doiPhase "DOI" (Record.mk [("DOI", "10.1111/isj.12345")] "")
        [("101111isj12345", [("isj.12345", "loc1")])] ↔
      ∃ k paths,
        (k, paths) ∈ [("101111isj12345", [("isj.12345", "loc1")])] ∧ 5 ≤ k.length ∧
          (k = normalizeS ((Record.mk [("DOI", "10.1111/isj.12345")] "").get "DOI") false ∨
            containsSub k.data
              (normalizeS ((Record.mk [("DOI", "10.1111/isj.12345")] "").get "DOI")
                  false).data = true) ∧
          "loc1" ∈ paths.map (fun p => p.2)) :=
  ⟨by decide, (c3_thm "DOI" _ _).1 (by decide) "loc1"⟩

/-- C4: the title phase runs only when the DOI phase collected zero
matches — with a non-empty DOI-phase result the outcome is independent
of the title index — and it accumulates exactly the locations of the
title-index entries whose key is non-empty and is a prefix of the
record's title normalized with numbers removed. -/
theorem c4_thm :
    (∀ (titleCol doiCol : String) (idx : Nat) (record : Record)
        (doi_index ti ti' : Index),
      doiPhase doiCol record doi_index ≠ [] →
        matchSingleRecord titleCol doiCol idx record ti doi_index =
          matchSingleRecord titleCol doiCol idx record ti' doi_index) ∧
    (∀ (titleCol : String) (record : Record) (title_index : Index) (loc : String),
      loc ∈ titlePhase titleCol record title_index ↔
        ∃ k paths, (k, paths) ∈ title_index ∧ k ≠ "" ∧
          k.data.isPrefixOf (normalizeS (record.get titleCol) true).data = true ∧
          loc ∈ paths.map (fun p => p.2)) := by
  constructor
  · intro titleCol doiCol idx record doi_index ti ti' h
    have he : (doiPhase doiCol record doi_index).isEmpty = false := by
      simpa [List.isEmpty_iff] using h
    simp only [matchSingleRecord, he, Bool.false_eq_true, if_false]
  · intro titleCol record title_index loc
    by_cases hv : record.get titleCol = ""
    · simp only [titlePhase]
      rw [if_neg (by simpa using hv)]
      simp only [List.not_mem_nil, false_iff]
      rintro ⟨k, paths, _, hne, hpre, _⟩
      have : k.data = [] := by
        have h0 : (normalizeS (record.get titleCol) true).data = [] := by
          rw [hv]
          rfl
        rw [h0] at hpre
        have := List.isPrefixOf_iff_prefix.mp hpre
        exact List.prefix_nil.mp this
      exact hne (by
        cases k with
        | mk d => simp_all)
    · simp only [titlePhase]
      rw [if_pos hv]
      simp only [List.mem_flatMap, List.mem_filter]
      constructor
      · rintro ⟨e, ⟨hmem, hcond⟩, hloc⟩
        simp only [Bool.and_eq_true, Bool.not_eq_true', beq_eq_false_iff_ne] at hcond
        exact ⟨e.1, e.2, hmem, hcond.1, hcond.2, hloc⟩
      · rintro ⟨k, paths, hmem, hne, hpre, hloc⟩
        refine ⟨(k, paths), ⟨hmem, ?_⟩, hloc⟩
        simp only [Bool.and_eq_true, Bool.not_eq_true', beq_eq_false_iff_ne]
        exact ⟨hne, hpre⟩

/-- C4 witness: with a non-empty DOI-phase result the title index is
irrelevant, at a concrete record and pair of title indexes. -/
theorem c4_witness :
    doiPhase "DOI" (Record.mk [("DOI", "10.1111/isj.12345")] "")
        [("101111isj12345", [("isj.12345", "loc1")])] ≠ [] ∧
    matchSingleRecord "Title" "DOI" 0 (Record.mk [("DOI", "10.1111/isj.12345")] "")
        [("someindexedtitle", [("a", "loc2")])]
        [("101111isj12345", [("isj.12345", "loc1")])] =
      matchSingleRecord "Title" "DOI" 0 (Record.mk [("DOI", "10.1111/isj.12345")] "")
        [] [("101111isj12345", [("isj.12345", "loc1")])] :=
  ⟨by decide, c4_thm.1 "Title" "DOI" 0 _ _ _ _ (by decide)⟩

theorem indexPairs_addToIndex_perm (idx : Index) (key : String) (v : String × String) :
    List.Perm (indexPairs (addToIndex idx key v)) ((key, v) :: indexPairs idx) := by
  induction idx with
  | nil => simp [indexPairs, addToIndex]
  | cons e rest ih =>
    obtain ⟨k0, vs⟩ := e
    simp only [indexPairs] at ih ⊢
    by_cases h : k0 = key
    · subst h
      rw [show addToIndex ((k0, vs) :: rest) k0 v = (k0, vs ++ [v]) :: rest by
        simp [addToIndex]]
      simp only [List.flatMap_cons]
      rw [List.map_append, List.map_singleton, List.append_assoc, List.singleton_append]
      exact List.perm_middle
    · simp only [addToIndex, if_neg h, List.flatMap_cons]
      exact List.Perm.trans (List.Perm.append_left _ ih) List.perm_middle

theorem mem_indexPairs_addToIndex (idx : Index) (key : String) (v w : String × String)
    (k : String) :
    (k, w) ∈ indexPairs (addToIndex idx key v) ↔
      (k, w) ∈ indexPairs idx ∨ (k = key ∧ w = v) := by
  rw [(indexPairs_addToIndex_perm idx key v).mem_iff, List.mem_cons, Prod.mk.injEq]
  tauto

theorem mem_indexPairs_buildStep_fst (acc : Index × Index) (f : String × String)
    (k : String) (w : String × String) :
    (k, w) ∈ indexPairs (buildStep acc f).1 ↔
      (k, w) ∈ indexPairs acc.1 ∨
        (w = f ∧ k = (analyzeS f.1).1 ∧ k ≠ "" ∧ (analyzeS f.1).2.2 = false ∧
          10 ≤ k.length) := by
  simp only [buildStep]
  by_cases hc : (analyzeS f.1).1 ≠ "" ∧ (analyzeS f.1).2.2 = false ∧
      10 ≤ (analyzeS f.1).1.length
  · rw [if_pos hc, mem_indexPairs_addToIndex]
    constructor
    · rintro (h | ⟨rfl, rfl⟩)
      · exact Or.inl h
      · exact Or.inr ⟨rfl, rfl, hc.1, hc.2.1, hc.2.2⟩
    · rintro (h | ⟨rfl, rfl, _, _, _⟩)
      · exact Or.inl h
      · exact Or.inr ⟨rfl, rfl⟩
  · rw [if_neg hc]
    constructor
    · exact Or.inl
    · rintro (h | ⟨rfl, rfl, h1, h2, h3⟩)
      · exact h
      · exact absurd ⟨h1, h2, h3⟩ hc

theorem mem_indexPairs_buildStep_snd (acc : Index × Index) (f : String × String)
    (k : String) (w : String × String) :
    (k, w) ∈ indexPairs (buildStep acc f).2 ↔
      (k, w) ∈ indexPairs acc.2 ∨
        (w = f ∧ k = (analyzeS f.1).2.1 ∧ k ≠ "") := by
  simp only [buildStep]
  by_cases hc : (analyzeS f.1).2.1 ≠ ""
  · rw [if_pos hc, mem_indexPairs_addToIndex]
    constructor
    · rintro (h | ⟨rfl, rfl⟩)
      · exact Or.inl h
      · exact Or.inr ⟨rfl, rfl, hc⟩
    · rintro (h | ⟨rfl, rfl, _⟩)
      · exact Or.inl h
      · exact Or.inr ⟨rfl, rfl⟩
  · rw [if_neg hc]
    constructor
    · exact Or.inl
    · rintro (h | ⟨rfl, rfl, h1⟩)
      · exact h
      · exact absurd h1 hc

theorem mem_indexPairs_buildFold (files : List (String × String)) :
    ∀ (ti di : Index) (k : String) (w : String × String),
      ((k, w) ∈ indexPairs (files.foldl buildStep (ti, di)).1 ↔
        (k, w) ∈ indexPairs ti ∨ (w ∈ files ∧ k = (analyzeS w.1).1 ∧ k ≠ "" ∧
          (analyzeS w.1).2.2 = false ∧ 10 ≤ k.length)) ∧
      ((k, w) ∈ indexPairs (files.foldl buildStep (ti, di)).2 ↔
        (k, w) ∈ indexPairs di ∨ (w ∈ files ∧ k = (analyzeS w.1).2.1 ∧ k ≠ "")) := by
  induction files with
  | nil =>
    intro ti di k w
    simp
  | cons f files ih =>
    intro ti di k w
    have s1 := mem_indexPairs_buildStep_fst (ti, di) f k w
    have s2 := mem_indexPairs_buildStep_snd (ti, di) f k w
    rcases hbs : buildStep (ti, di) f with ⟨ti1, di1⟩
    rw [hbs] at s1 s2
    rw [List.foldl_cons, hbs]
    have h1 := (ih ti1 di1 k w).1
    have h2 := (ih ti1 di1 k w).2
    constructor
    · rw [h1, s1]
      constructor
      · rintro ((h | ⟨rfl, hC⟩) | ⟨hw, hC⟩)
        · exact Or.inl h
        · exact Or.inr ⟨List.mem_cons_self _ _, hC⟩
        · exact Or.inr ⟨List.mem_cons_of_mem _ hw, hC⟩
      · rintro (h | ⟨hw, hC⟩)
        · exact Or.inl (Or.inl h)
        · rcases List.mem_cons.mp hw with rfl | hw
          · exact Or.inl (Or.inr ⟨rfl, hC⟩)
          · exact Or.inr ⟨hw, hC⟩
    · rw [h2, s2]
      constructor
      · rintro ((h | ⟨rfl, hC⟩) | ⟨hw, hC⟩)
        · exact Or.inl h
        · exact Or.inr ⟨List.mem_cons_self _ _, hC⟩
        · exact Or.inr ⟨List.mem_cons_of_mem _ hw, hC⟩
      · rintro (h | ⟨hw, hC⟩)
        · exact Or.inl (Or.inl h)
        · rcases List.mem_cons.mp hw with rfl | hw
          · exact Or.inl (Or.inr ⟨rfl, hC⟩)
          · exact Or.inr ⟨hw, hC⟩

/-- C5: a scanned base name files its `(name, path)` pair in the title
index under its analyzed title key exactly when that key is non-empty,
the name is not DOI-format, and the key has length at least 10; and it
files its pair in the DOI index under its DOI key exactly when that key
is non-empty. -/
theorem c5_thm (files : List (String × String)) (k : String) (w : String × String) :
    ((k, w) ∈ indexPairs (buildIndexes files).1 ↔
      w ∈ files ∧ k = (analyzeS w.1).1 ∧ k ≠ "" ∧ (analyzeS w.1).2.2 = false ∧
        10 ≤ k.length) ∧
    ((k, w) ∈ indexPairs (buildIndexes files).2 ↔
      w ∈ files ∧ k = (analyzeS w.1).2.1 ∧ k ≠ "") := by
  have h := mem_indexPairs_buildFold files [] [] k w
  simpa [buildIndexes, indexPairs] using h

/-- C5 witness: membership applied at a concrete scan. -/
theorem c5_witness :
    ("atitlewithmanywords", ("a-title-with-many-words_2024_X", "loc1")) ∈
      indexPairs (buildIndexes [("a-title-with-many-words_2024_X", "loc1")]).1 :=
  (c5_thm [("a-title-with-many-words_2024_X", "loc1")] "atitlewithmanywords"
      ("a-title-with-many-words_2024_X", "loc1")).1.mpr (by decide)

theorem append_ne_empty_of_left {s : String} (h : s.data ≠ []) (t : String) :
    s ++ t ≠ "" := by
  intro he
  apply h
  have hd : (s ++ t).data = ("" : String).data := by rw [he]
  rw [String.data_append] at hd
  exact (List.append_eq_nil.mp hd).1

theorem multi_reason_ne_empty (x y : String) : "匹配到 " ++ x ++ y ≠ "" := by
  apply append_ne_empty_of_left
  rw [String.data_append]
  intro h
  exact absurd (List.append_eq_nil.mp h).1 (by decide)

theorem classifyMatches_invariant (idx : Nat) (record : Record) (md : List String) :
    ((classifyMatches idx record md).status = MatchStatus.UNMATCHED ↔
      (classifyMatches idx record md).matched_pdfs = []) ∧
    ((classifyMatches idx record md).status = MatchStatus.MATCHED ↔
      (classifyMatches idx record md).matched_pdfs.length = 1) ∧
    ((classifyMatches idx record md).status = MatchStatus.MULTI_MATCHED ↔
      2 ≤ (classifyMatches idx record md).matched_pdfs.length) ∧
    (((classifyMatches idx record md).status = MatchStatus.UNMATCHED ∨
        (classifyMatches idx record md).status = MatchStatus.MULTI_MATCHED) →
      (classifyMatches idx record md).reason ≠ "") := by
  simp only [classifyMatches]
  split_ifs with h0 h1
  · exact ⟨by simp, by simp, by simp, fun _ => by
      show "未找到匹配的 PDF 文件" ≠ ""
      decide⟩
  · have hne : md ≠ [] := fun he => h0 (by simp [he])
    refine ⟨by simp [hne], by simp [h1], by simp [h1], fun hcon => ?_⟩
    rcases hcon with h | h <;> simp at h
  · have h2 : 2 ≤ md.length := by omega
    refine ⟨?_, by simp [h1], by simp [h2], fun _ => multi_reason_ne_empty _ _⟩
    have hne : md ≠ [] := fun he => h0 (by simp [he])
    simp [hne]

/-- C6: every outcome produced by `match_all` satisfies the arity
invariant: the deduplicated matched-locations list is empty exactly when
the status is Unmatched, a singleton exactly when Matched, of size ≥ 2
exactly when MultiMatched, and the reason is non-empty for Unmatched and
MultiMatched outcomes. -/
theorem c6_thm (titleCol doiCol : String) (files : List (String × String))
    (records : List Record) (name : String) :
    ∀ r ∈ (match_all titleCol doiCol files records name).results,
      (r.status = MatchStatus.UNMATCHED ↔ r.matched_pdfs = []) ∧
      (r.status = MatchStatus.MATCHED ↔ r.matched_pdfs.length = 1) ∧
      (r.status = MatchStatus.MULTI_MATCHED ↔ 2 ≤ r.matched_pdfs.length) ∧
      ((r.status = MatchStatus.UNMATCHED ∨ r.status = MatchStatus.MULTI_MATCHED) →
        r.reason ≠ "") := by
  intro r hr
  simp only [match_all] at hr
  split at hr
  · simp only [List.mem_map] at hr
    obtain ⟨p, _, rfl⟩ := hr
    exact ⟨by simp, by simp, by simp, fun _ => by
      show "目录中没有 PDF 文件" ≠ ""
      decide⟩
  · simp only [List.mem_map] at hr
    obtain ⟨p, _, rfl⟩ := hr
    exact classifyMatches_invariant p.1 p.2 _

/-- C6 witness: the invariant at a concrete matched outcome. -/
theorem c6_witness :
    ((MatchResult.mk 0 (Record.mk [("DOI", "10.1111/isj.12345")] "")
          MatchStatus.MATCHED ["p1"] "").status = MatchStatus.UNMATCHED ↔
      (MatchResult.mk 0 (Record.mk [("DOI", "10.1111/isj.12345")] "")
          MatchStatus.MATCHED ["p1"] "").matched_pdfs = []) ∧
    ((MatchResult.mk 0 (Record.mk [("DOI", "10.1111/isj.12345")] "")
          MatchStatus.MATCHED ["p1"] "").status = MatchStatus.MATCHED ↔
      (MatchResult.mk 0 (Record.mk [("DOI", "10.1111/isj.12345")] "")
          MatchStatus.MATCHED ["p1"] "").matched_pdfs.length = 1) ∧
    ((MatchResult.mk 0 (Record.mk [("DOI", "10.1111/isj.12345")] "")
          MatchStatus.MATCHED ["p1"] "").status = MatchStatus.MULTI_MATCHED ↔
      2 ≤ (MatchResult.mk 0 (Record.mk [("DOI", "10.1111/isj.12345")] "")
          MatchStatus.MATCHED ["p1"] "").matched_pdfs.length) ∧
    (((MatchResult.mk 0 (Record.mk [("DOI", "10.1111/isj.12345")] "")
          MatchStatus.MATCHED ["p1"] "").status = MatchStatus.UNMATCHED ∨
        (MatchResult.mk 0 (Record.mk [("DOI", "10.1111/isj.12345")] "")
          MatchStatus.MATCHED ["p1"] "").status = MatchStatus.MULTI_MATCHED) →
      (MatchResult.mk 0 (Record.mk [("DOI", "10.1111/isj.12345")] "")
          MatchStatus.MATCHED ["p1"] "").reason ≠ "") :=
  c6_thm "Title" "DOI" [("isj.12345", "p1")]
    [Record.mk [("DOI", "10.1111/isj.12345")] ""] "csv"
    (MatchResult.mk 0 (Record.mk [("DOI", "10.1111/isj.12345")] "")
      MatchStatus.MATCHED ["p1"] "") (by decide)

theorem midTokenAt_nil : midTokenAt [] = false := rfl

theorem findMidIdx_eq_some (l : List Char) :
    ∀ i : Nat, (∀ j, j < i → midTokenAt (l.drop j) = false) →
      midTokenAt (l.drop i) = true → findMidIdx l = some i := by
  induction l with
  | nil =>
    intro i _ hat
    rw [List.drop_nil] at hat
    exact absurd hat (by decide)
  | cons c rest ih =>
    intro i hbefore hat
    cases i with
    | zero =>
      rw [List.drop_zero] at hat
      rw [findMidIdx, if_pos hat]
    | succ i =>
      have h0 : midTokenAt (c :: rest) = false := by
        have := hbefore 0 (Nat.succ_pos i)
        rwa [List.drop_zero] at this
      rw [findMidIdx, if_neg (by simp [h0])]
      have hb : ∀ j, j < i → midTokenAt (rest.drop j) = false := by
        intro j hj
        have := hbefore (j + 1) (by omega)
        rwa [List.drop_succ_cons] at this
      rw [List.drop_succ_cons] at hat
      rw [ih i hb hat]
      rfl

theorem midTokenAt_year (a b c d : Char) (t : List Char)
    (ha : isDigitC a = true) (hb : isDigitC b = true) (hc : isDigitC c = true)
    (hd : isDigitC d = true) :
    midTokenAt ('_' :: a :: b :: c :: d :: '_' :: t) = true := by
  simp [midTokenAt, ha, hb, hc, hd]

/-- C7: for a name containing an underscore-delimited 4-digit year token
with no earlier `_dddd_` match, the extracted title part is everything
before the token's leading underscore; in particular
`analyze "A-title_2024_Journal"` and `analyze "A-title"` produce the
same title key. -/
theorem c7_thm :
    (∀ (p y t : List Char), y.length = 4 → (∀ c ∈ y, isDigitC c = true) →
      (∀ j, j < p.length →
        midTokenAt ((p ++ '_' :: (y ++ '_' :: t)).drop j) = false) →
      extract_title_part (p ++ '_' :: (y ++ '_' :: t)) = p) ∧
    (analyzeS "A-title_2024_Journal").1 = (analyzeS "A-title").1 := by
  constructor
  · intro p y t hy hdig hfirst
    obtain ⟨a, b, c, d, rfl⟩ : ∃ a b c d, y = [a, b, c, d] := by
      rcases y with _ | ⟨a, _ | ⟨b, _ | ⟨c, _ | ⟨d, _ | ⟨e, y⟩⟩⟩⟩⟩ <;>
        simp_all
    have hdrop : (p ++ '_' :: ([a, b, c, d] ++ '_' :: t)).drop p.length =
        '_' :: ([a, b, c, d] ++ '_' :: t) := by
      simp
    have hat : midTokenAt ((p ++ '_' :: ([a, b, c, d] ++ '_' :: t)).drop p.length) =
        true := by
      rw [hdrop]
      exact midTokenAt_year a b c d t (hdig a (by simp)) (hdig b (by simp))
        (hdig c (by simp)) (hdig d (by simp))
    have hfind := findMidIdx_eq_some _ p.length hfirst hat
    rw [extract_title_part, hfind]
    simp
  · decide

/-- C7 witness: the general statement applied at
`"A-title" ++ "_" ++ "2024" ++ "_" ++ "Journal"`. -/
theorem c7_witness :
    extract_title_part ("A-title".data ++ '_' :: ("2024".data ++ '_' :: "Journal".data)) =
      "A-title".data :=
  c7_thm.1 "A-title".data "2024".data "Journal".data (by decide) (by decide)
    (by decide)

/-- C8: a run whose file scan yields zero files (as a missing scan
directory does) marks every record Unmatched with a non-empty no-files
reason and an empty matched-locations list — the result is exactly the
early-return list, built without consulting any index — and the run
returns normally. -/
theorem c8_thm (titleCol doiCol : String) (records : List Record) (name : String) :
    (match_all titleCol doiCol [] records name).results =
      records.enum.map (fun p =>
        { record_index := p.1, record := p.2, status := MatchStatus.UNMATCHED,
          matched_pdfs := [], reason := "目录中没有 PDF 文件" }) ∧
    (match_all titleCol doiCol [] records name).total_records = records.length ∧
    ∀ r ∈ (match_all titleCol doiCol [] records name).results,
      r.status = MatchStatus.UNMATCHED ∧ r.matched_pdfs = [] ∧ r.reason ≠ "" := by
  refine ⟨rfl, rfl, ?_⟩
  intro r hr
  simp only [match_all, List.isEmpty_nil, if_true, List.mem_map] at hr
  obtain ⟨p, _, rfl⟩ := hr
  exact ⟨rfl, rfl, by
    show "目录中没有 PDF 文件" ≠ ""
    decide⟩

/-- C8 witness: the per-record conclusion at a concrete empty-scan run. -/
theorem c8_witness :
    (MatchResult.mk 0 (Record.mk [("Title", "x")] "") MatchStatus.UNMATCHED []
        "目录中没有 PDF 文件").status = MatchStatus.UNMATCHED ∧
    (MatchResult.mk 0 (Record.mk [("Title", "x")] "") MatchStatus.UNMATCHED []
        "目录中没有 PDF 文件").matched_pdfs = [] ∧
    (MatchResult.mk 0 (Record.mk [("Title", "x")] "") MatchStatus.UNMATCHED []
        "目录中没有 PDF 文件").reason ≠ "" :=
  (c8_thm "Title" "DOI" [Record.mk [("Title", "x")] ""] "csv").2.2
    (MatchResult.mk 0 (Record.mk [("Title", "x")] "") MatchStatus.UNMATCHED []
      "目录中没有 PDF 文件") (by decide)

theorem status_count_partition (l : List MatchResult) :
    (l.filter (fun r => r.status == MatchStatus.MATCHED)).length +
      (l.filter (fun r => r.status == MatchStatus.UNMATCHED)).length +
      (l.filter (fun r => r.status == MatchStatus.MULTI_MATCHED)).length = l.length := by
  induction l with
  | nil => rfl
  | cons r l ih =>
    cases h : r.status <;> simp [List.filter_cons, h] <;> omega

/-- C9: in every `BatchResult` returned by `match_all`, the Matched,
Unmatched and MultiMatched counts sum to the total record count. -/
theorem c9_thm (titleCol doiCol : String) (files : List (String × String))
    (records : List Record) (name : String) :
    (match_all titleCol doiCol files records name).matched_count +
      (match_all titleCol doiCol files records name).unmatched_count +
      (match_all titleCol doiCol files records name).multi_matched_count =
      (match_all titleCol doiCol files records name).total_records := by
  have hlen : (match_all titleCol doiCol files records name).results.length =
      records.length := by
    simp only [match_all]
    split <;> simp
  have htot : (match_all titleCol doiCol files records name).total_records =
      records.length := by
    simp only [match_all]
    split <;> rfl
  simp only [BatchMatchResult.matched_count, BatchMatchResult.unmatched_count,
    BatchMatchResult.multi_matched_count, BatchMatchResult.matched_results,
    BatchMatchResult.unmatched_results, BatchMatchResult.multi_matched_results]
  rw [status_count_partition, hlen, htot]

/-- C10: the match rate is the matched count divided by the total record
count when the latter is positive, and 0 when there are no records. -/
theorem c10_thm (b : BatchMatchResult) :
    (b.total_records = 0 → b.match_rate = 0) ∧
    (0 < b.total_records →
      b.match_rate = (b.matched_count : ℚ) / (b.total_records : ℚ)) := by
  constructor
  · intro h
    simp [BatchMatchResult.match_rate, h]
  · intro h
    rw [BatchMatchResult.match_rate, if_neg (by omega)]

/-- C10 witness: the positive-total branch at a concrete batch result. -/
theorem c10_witness :
    0 < (BatchMatchResult.mk "s" 3 2 []).total_records ∧
    (BatchMatchResult.mk "s" 3 2 []).match_rate =
      ((BatchMatchResult.mk "s" 3 2 []).matched_count : ℚ) /
        ((BatchMatchResult.mk "s" 3 2 []).total_records : ℚ) :=
  ⟨by decide, (c10_thm _).2 (by decide)⟩
